import Mathlib

/-!
Verification of the windowing transforms in `interactions.py` (repository HPG).

The file embeds the two sequence transforms of the `Interactions` class —
`to_sequence` (Variant A, fixed-offset windows) and `to_newsequence`
(Variant B, growing-prefix windows) — as executable Lean functions over
`Nat` item ids and `List`-based arrays, and proves or refutes the spec's
claims about them.  A raised Python exception is modelled by `Option`
(`none` at exactly the places numpy raises) and the mutation of the two
derived-table slots by an explicit `CallResult` on the `Interactions`
record.
-/

set_option maxRecDepth 4000

namespace HPG

/-- Python slice `a[-n:]` for a nonnegative `n`.  Note the quirk that
`a[-0:]` is `a[0:]`, the whole list. -/
def pyLastSlice (a : List Nat) (n : Nat) : List Nat :=
  if n = 0 then a else a.drop (a.length - n)

/-- `_sliding_window` from interactions.py.  The sliding loop in the source
is commented out: the generator yields exactly one window — the last
`window_size` items when the tensor is long enough, otherwise the whole
tensor right-padded with zeros (`np.pad(tensor, (0, num_paddings), 'constant')`
pads after the data). -/
def slidingWindowOne (tensor : List Nat) (window_size : Nat) : List Nat :=
  if window_size ≤ tensor.length then
    tensor.drop (tensor.length - window_size)
  else
    tensor ++ List.replicate (window_size - tensor.length) 0

/-- Insert a value into a strictly ascending duplicate-free list, keeping it so. -/
def insertUser (u : Nat) : List Nat → List Nat
  | [] => [u]
  | v :: vs =>
    if u < v then u :: v :: vs
    else if u = v then v :: vs
    else v :: insertUser u vs

/-- Ascending duplicate-free list of the values of a list, as returned by
`np.unique`. -/
def distinctSorted (users : List Nat) : List Nat :=
  users.foldr insertUser []

/-- The items of user `u` in log order.  `np.lexsort((user_ids,))` is a stable
sort by user id, so the block of user `u` obtained from
`np.unique(..., return_index=True)` and slicing holds exactly the items at the
log positions carrying user id `u`, in their original relative order. -/
def historyOf (users items : List Nat) (u : Nat) : List Nat :=
  ((users.zip items).filter (fun q => q.1 == u)).map (fun q => q.2)

/-- The grouped log: ascending distinct user ids paired with their item
histories — the combined effect of the lexsort / unique / block-slicing
steps shared by both transforms. -/
def groupByUser (users items : List Nat) : List (Nat × List Nat) :=
  (distinctSorted users).map (fun u => (u, historyOf users items u))

/-- The `counts` array of `np.unique(user_ids, return_counts=True)`:
multiplicity of each distinct user id. -/
def userCounts (users : List Nat) : List Nat :=
  (distinctSorted users).map (fun u => users.count u)

/-- The `SequenceInteractions` record (only data reachable by the claims;
the derived `T` attribute computed via `np.any(targets)` is not modelled
since no claim mentions it).  `L` is `sequences.shape[1]`. -/
structure SequenceInteractions where
  user_ids : List Nat
  sequences : List (List Nat)
  targets : Option (List (List Nat))
  length : Option (List Nat)
  tarlen : Option (List Nat)
  L : Nat
deriving DecidableEq

/-- The `Interactions` record: the flattened log plus the two derived-table
slots (both `None` after construction). -/
structure Interactions where
  num_users : Nat
  num_items : Nat
  user_ids : List Nat
  item_ids : List Nat
  sequences : Option SequenceInteractions
  test_sequences : Option SequenceInteractions
deriving DecidableEq

/-- `Interactions.__init__`: flatten a per-user list of item sequences into
the two parallel id arrays (user ids in enumeration order, each user's items
in their given order). -/
def mkInteractions (user_item_sequence : List (List Nat))
    (num_users num_items : Nat) : Interactions :=
  { num_users := num_users
    num_items := num_items
    user_ids := (user_item_sequence.enum.map
      (fun p => List.replicate p.2.length p.1)).flatten
    item_ids := user_item_sequence.flatten
    sequences := none
    test_sequences := none }

/-- Result of a method call on an `Interactions` object: normal return with
the updated object, or an exception raised with the object in the state it
had at the moment of the raise. -/
inductive CallResult where
  | ok : Interactions → CallResult
  | raised : Interactions → CallResult
deriving DecidableEq

/-- `mat[i][:] = src` on a 2-D numpy array held as a list of rows:
`IndexError` when `i` is out of range; otherwise the assignment succeeds when
`src` has the row's width, broadcasts when `src` has length 1, and raises a
broadcast `ValueError` otherwise. -/
def setRow (mat : List (List Nat)) (i : Nat) (src : List Nat) :
    Option (List (List Nat)) :=
  match mat.get? i with
  | none => none
  | some row =>
    if src.length = row.length then some (mat.set i src)
    else if src.length = 1 then
      some (mat.set i (List.replicate row.length (src.headD 0)))
    else none

/-- `a[i] = v` on a 1-D numpy array: `IndexError` when out of range. -/
def setCell (a : List Nat) (i v : Nat) : Option (List Nat) :=
  if i < a.length then some (a.set i v) else none

/-- Mutable state of the fill loop of `to_sequence`: the five output arrays
plus the `_uid` tracker. -/
structure StateA where
  seqs : List (List Nat)
  tgts : List (List Nat)
  users : List Nat
  test : List (List Nat)
  testUsers : List Nat
  last : Option Nat
deriving DecidableEq

/-- The `uid != _uid` guard of the loop body with its two evaluation-table
writes; returns the (possibly updated) test table, test user array and
`_uid`. -/
def stepTestA (L : Nat) (s : StateA) (u : Nat) (item_seq : List Nat) :
    Option (List (List Nat) × List Nat × Option Nat) :=
  if s.last ≠ some u then do
    let t ← setRow s.test u (pyLastSlice item_seq L)
    let tu ← setCell s.testUsers u u
    pure (t, tu, some u)
  else
    pure (s.test, s.testUsers, s.last)

/-- One iteration of the fill loop of `to_sequence`, for generator output
index `p.1` with user `p.2.1` and item block `p.2.2` (the generator yields
once per user, see `slidingWindowOne`).  Statement order follows the source:
the `uid != _uid` guard with the two test-table writes, then the target,
window and user writes at row `p.1`. -/
def stepA (L T : Nat) (s : StateA) (p : Nat × Nat × List Nat) :
    Option StateA := do
  let item_seq := slidingWindowOne p.2.2 (L + T)
  let (test1, testU1, last1) ← stepTestA L s p.2.1 item_seq
  let tg ← setRow s.tgts p.1 (pyLastSlice item_seq T)
  let sq ← setRow s.seqs p.1 (item_seq.take L)
  let su ← setCell s.users p.1 p.2.1
  pure { seqs := sq, tgts := tg, users := su,
         test := test1, testUsers := testU1, last := last1 }

/-- `num_subsequences`: the allocated number of training rows,
`sum(c - M + 1 if c >= M else 1 for c in counts)` with `M = L + T`. -/
def allocA (L T : Nat) (users : List Nat) : Nat :=
  ((userCounts users).map (fun c => if L + T ≤ c then c - (L + T) + 1 else 1)).sum

/-- Body of `Interactions.to_sequence` up to (but not including) the two
slot assignments: allocation of the output arrays (`np.zeros` rows, and
`np.empty` user arrays whose unspecified contents are the parameter
`uninit`) followed by the fill loop over the grouped log. -/
def toSequenceTables (L T uninit num_users : Nat) (users items : List Nat) :
    Option StateA :=
  let n := allocA L T users
  let init : StateA :=
    { seqs := List.replicate n (List.replicate L 0)
      tgts := List.replicate n (List.replicate T 0)
      users := List.replicate n uninit
      test := List.replicate num_users (List.replicate L 0)
      testUsers := List.replicate num_users uninit
      last := none }
  (groupByUser users items).enum.foldlM (stepA L T) init

/-- The training `SequenceInteractions` built at line 148 of the source
(from the `np.zeros`/`np.empty` arrays; `L` is `sequences.shape[1]`). -/
def trainTableA (L : Nat) (s : StateA) : SequenceInteractions :=
  { user_ids := s.users, sequences := s.seqs, targets := some s.tgts
    length := none, tarlen := none, L := L }

/-- The evaluation `SequenceInteractions` built at line 149 of the source. -/
def testTableA (L : Nat) (s : StateA) : SequenceInteractions :=
  { user_ids := s.testUsers, sequences := s.test, targets := none
    length := none, tarlen := none, L := L }

/-- `Interactions.to_sequence`.  On an exception inside the loop the slots
are untouched.  The two `SequenceInteractions` constructions at the end
cannot raise: their `sequences` arguments are `np.zeros`-built 2-D arrays,
so `sequences.shape[1]` is defined even with zero rows; hence both slots
are assigned. -/
def to_sequence (L T uninit : Nat) (I : Interactions) : CallResult :=
  match toSequenceTables L T uninit I.num_users I.user_ids I.item_ids with
  | none => CallResult.raised I
  | some s =>
    CallResult.ok { I with sequences := some (trainTableA L s)
                           test_sequences := some (testTableA L s) }

/-- `np.pad(a, (0, padding), 'constant')` with a possibly negative computed
pad width: numpy raises `ValueError` on a negative pad width. -/
def npPadRight (a : List Nat) (padding : Int) : Option (List Nat) :=
  if padding < 0 then none else some (a ++ List.replicate padding.toNat 0)

/-- The per-user truncation of `to_newsequence`:
`if len(one_sequence) > sequence_length: one_sequence = one_sequence[-sequence_length:]`
(the slice is `pyLastSlice`, so `sequence_length = 0` keeps the whole list). -/
def oneSeqB (L : Nat) (h : List Nat) : List Nat :=
  if L < h.length then pyLastSlice h L else h

/-- One training row of `to_newsequence` with its recorded lengths. -/
structure RowB where
  user : Nat
  window : List Nat
  wlen : Nat
  target : List Nat
  tlen : Nat
deriving DecidableEq

/-- The inner `for train_len in range(len(one_sequence)-1)` loop of
`to_newsequence` for one user: prefix windows right-padded to width `L`,
targets right-padded to width `T`, with the unpadded lengths recorded. -/
def trainRowsB (L T u : Nat) (one : List Nat) : Option (List RowB) :=
  (List.range (one.length - 1)).mapM (fun train_len => do
    let sub_seq := one.take (train_len + 1)
    let sub ← npPadRight sub_seq ((L : Int) - train_len - 1)
    let target_sub := (one.drop (train_len + 1)).take T
    let target ← npPadRight target_sub ((T : Int) - target_sub.length)
    pure { user := u, window := sub, wlen := train_len + 1,
           target := target, tlen := target_sub.length })

/-- The accumulated output lists of `to_newsequence` (the three parallel
test lists are held as one list of triples `(user, row, length)`). -/
structure ListsB where
  train : List RowB
  test : List (Nat × List Nat × Nat)
deriving DecidableEq

/-- One iteration of the per-user loop of `to_newsequence`: truncate the
history, append the test row, then append the training rows. -/
def stepNewB (L T : Nat) (acc : ListsB) (p : Nat × List Nat) : Option ListsB := do
  let one := oneSeqB L p.2
  let test_train_seq ← npPadRight one ((L : Int) - one.length)
  let rows ← trainRowsB L T p.1 one
  pure { train := acc.train ++ rows
         test := acc.test ++ [(p.1, test_train_seq, one.length)] }

/-- Body of `Interactions.to_newsequence` up to the two slot assignments. -/
def toNewTables (L T : Nat) (users items : List Nat) : Option ListsB :=
  (groupByUser users items).foldlM (stepNewB L T) { train := [], test := [] }

/-- The training `SequenceInteractions` built at line 248 of the source from
the accumulated lists (`L` is `sequences.shape[1]`, the width of the first
row). -/
def trainTableB (train : List RowB) : SequenceInteractions :=
  { user_ids := train.map (fun r => r.user)
    sequences := train.map (fun r => r.window)
    targets := some (train.map (fun r => r.target))
    length := some (train.map (fun r => r.wlen))
    tarlen := some (train.map (fun r => r.tlen))
    L := ((train.map (fun r => r.window)).headD []).length }

/-- The evaluation `SequenceInteractions` built at line 249 of the source. -/
def testTableB (test : List (Nat × List Nat × Nat)) : SequenceInteractions :=
  { user_ids := test.map (fun q => q.1)
    sequences := test.map (fun q => q.2.1)
    targets := none
    length := some (test.map (fun q => q.2.2))
    tarlen := none
    L := ((test.map (fun q => q.2.1)).headD []).length }

/-- `Interactions.to_newsequence`.  Line 248 constructs the training
`SequenceInteractions` from `np.array` of the accumulated lists: for an
empty list `np.array([])` is one-dimensional, so reading
`sequences.shape[1]` in the constructor raises `IndexError` before the
first slot assignment.  Line 249 does the same for the test lists after
the first slot assignment. -/
def to_newsequence (L T : Nat) (I : Interactions) : CallResult :=
  match toNewTables L T I.user_ids I.item_ids with
  | none => CallResult.raised I
  | some lists =>
    if lists.train.isEmpty then
      CallResult.raised I
    else
      let I1 : Interactions := { I with sequences := some (trainTableB lists.train) }
      if lists.test.isEmpty then
        CallResult.raised I1
      else
        CallResult.ok { I1 with test_sequences := some (testTableB lists.test) }

/-- Closed form of one user's training rows in `to_newsequence`. -/
def rowsForB (L T : Nat) (p : Nat × List Nat) : List RowB :=
  (List.range ((oneSeqB L p.2).length - 1)).map (fun k =>
    { user := p.1
      window := (oneSeqB L p.2).take (k+1) ++ List.replicate (L - (k+1)) 0
      wlen := k + 1
      target := ((oneSeqB L p.2).drop (k+1)).take T ++
        List.replicate (T - (((oneSeqB L p.2).drop (k+1)).take T).length) 0
      tlen := (((oneSeqB L p.2).drop (k+1)).take T).length })

/-- Closed form of one user's evaluation row in `to_newsequence`. -/
def evalForB (L : Nat) (p : Nat × List Nat) : Nat × List Nat × Nat :=
  (p.1, oneSeqB L p.2 ++ List.replicate (L - (oneSeqB L p.2).length) 0,
    (oneSeqB L p.2).length)

/-- The claim's formula for one user's Variant-B training rows: for user `u`
with history `h`, `h' = h[-L:]` if `c > L` else `h`, `c' = min c L`, one row
per prefix length `p = k+1 ∈ [1, c'-1]`, window `h'[0:p]` right-padded to
`L` with window length `p`, target `h'[p:p+T]` right-padded to `T` with
target length `min T (c'-p)`. -/
def specRowsB (L T : Nat) (q : Nat × List Nat) : List RowB :=
  (List.range (min q.2.length L - 1)).map (fun k =>
    { user := q.1
      window := (if L < q.2.length then q.2.drop (q.2.length - L) else q.2).take (k+1)
          ++ List.replicate (L - (k+1)) 0
      wlen := k + 1
      target := ((if L < q.2.length then q.2.drop (q.2.length - L) else q.2).drop (k+1)).take T
          ++ List.replicate (T - min T (min q.2.length L - (k+1))) 0
      tlen := min T (min q.2.length L - (k+1)) })

/-- The claim's formula for one user's Variant-B evaluation row: `h'`
right-padded to width `L`, with recorded length `c' = min c L`. -/
def specEvalB (L : Nat) (q : Nat × List Nat) : Nat × List Nat × Nat :=
  (q.1, (if L < q.2.length then q.2.drop (q.2.length - L) else q.2)
      ++ List.replicate (L - min q.2.length L) 0, min q.2.length L)

/-- The window half (first `L` entries) of the single width-`M` row that the
degenerate `_sliding_window` yields for a user of `to_sequence`. -/
def winRowA (L T : Nat) (h : List Nat) : List Nat :=
  (slidingWindowOne h (L + T)).take L

/-- The target half (`item_seq[-target_length:]`) of that row. -/
def tgtRowA (L T : Nat) (h : List Nat) : List Nat :=
  pyLastSlice (slidingWindowOne h (L + T)) T

/-- The evaluation row (`item_seq[-sequence_length:]`) written for a user of
`to_sequence`. -/
def evalRowA (L T : Nat) (h : List Nat) : List Nat :=
  pyLastSlice (slidingWindowOne h (L + T)) L

/-- Well-formedness of the `to_sequence` loop state: array lengths `n`
(training) and `nu` (evaluation), and row widths `L` and `T`. -/
def WFA (L T n nu : Nat) (s : StateA) : Prop :=
  s.seqs.length = n ∧ s.tgts.length = n ∧ s.users.length = n ∧
  s.test.length = nu ∧ s.testUsers.length = nu ∧
  (∀ r ∈ s.seqs, r.length = L) ∧ (∀ r ∈ s.tgts, r.length = T) ∧
  (∀ r ∈ s.test, r.length = L)

/-- `a` occurs as a contiguous run inside `b`. -/
def isSubseg (a b : List Nat) : Prop :=
  ∃ s t, b = s ++ a ++ t

/-- Claim C1 (code evaluation at the failing input): for the user history
`[1,…,9]` with `L = 5`, `T = 3` (so `M = 8`, and the claim demands the two
sliding rows `h[0:8]` and `h[1:9]`), `to_sequence` allocates `9 − 8 + 1 = 2`
training rows but fills only the first, with the single window produced by
the degenerate `_sliding_window`: window `[2,3,4,5,6]`, target `[7,8,9]`.
The second row stays all-zero and its user slot keeps the uninitialized
`np.empty` content (here `77`). -/
theorem claim_C1_code_eval :
    to_sequence 5 3 77 (mkInteractions [[1,2,3,4,5,6,7,8,9]] 1 10) =
      CallResult.ok
        { mkInteractions [[1,2,3,4,5,6,7,8,9]] 1 10 with
          sequences := some
            { user_ids := [0, 77]
              sequences := [[2,3,4,5,6], [0,0,0,0,0]]
              targets := some [[7,8,9], [0,0,0]]
              length := none, tarlen := none, L := 5 }
          test_sequences := some
            { user_ids := [0]
              sequences := [[5,6,7,8,9]]
              targets := none, length := none, tarlen := none, L := 5 } } := by
  decide

/-- Claim C2 (code evaluation at the failing input): for the user history
`[1,2,3]` with `L = 5`, `T = 1` (so `c = 3 < M = 6`), the claim demands the
left-padded row `[0,0,0,1,2,3]` (window `[0,0,0,1,2]`, target `[3]`), but
`np.pad(tensor, (0, num_paddings))` pads on the right: the emitted row is
`[1,2,3,0,0,0]`, giving window `[1,2,3,0,0]` and target `[0]`. -/
theorem claim_C2_code_eval :
    to_sequence 5 1 77 (mkInteractions [[1,2,3]] 1 5) =
      CallResult.ok
        { mkInteractions [[1,2,3]] 1 5 with
          sequences := some
            { user_ids := [0]
              sequences := [[1,2,3,0,0]]
              targets := some [[0]]
              length := none, tarlen := none, L := 5 }
          test_sequences := some
            { user_ids := [0]
              sequences := [[2,3,0,0,0]]
              targets := none, length := none, tarlen := none, L := 5 } } := by
  decide

/-- Claim C3 (code evaluation at the failing input): for the user history
`[1,2,3]` with `L = 5`, `T = 2`, the claim demands the evaluation row
`[0,0,1,2,3]` (the last 5 items left-padded).  The code instead takes the
last 5 entries of the right-padded width-7 window `[1,2,3,0,0,0,0]`, giving
`[3,0,0,0,0]`: the first `T` real items are lost and the padding sits on the
right. -/
theorem claim_C3_code_eval :
    to_sequence 5 2 77 (mkInteractions [[1,2,3]] 1 5) =
      CallResult.ok
        { mkInteractions [[1,2,3]] 1 5 with
          sequences := some
            { user_ids := [0]
              sequences := [[1,2,3,0,0]]
              targets := some [[0,0]]
              length := none, tarlen := none, L := 5 }
          test_sequences := some
            { user_ids := [0]
              sequences := [[3,0,0,0,0]]
              targets := none, length := none, tarlen := none, L := 5 } } := by
  decide

/-- Claim C6 counterexample: for a log whose only user (index 0) has zero
interactions, with `L = 5`, `T = 1`: Variant A succeeds but emits zero
training rows for that user (the claim demanded one all-zero padded row),
and Variant B raises (the empty training-row list makes
`sequences.shape[1]` fail) instead of emitting an evaluation row — the
claim demanded no crash and one all-zero evaluation row of length 0. -/
theorem claim_C6_counterexample :
    to_sequence 5 1 77 (mkInteractions [[]] 1 5) =
      CallResult.ok
        { mkInteractions [[]] 1 5 with
          sequences := some
            { user_ids := [], sequences := [], targets := some []
              length := none, tarlen := none, L := 5 }
          test_sequences := some
            { user_ids := [77], sequences := [[0,0,0,0,0]]
              targets := none, length := none, tarlen := none, L := 5 } } ∧
    to_newsequence 5 1 (mkInteractions [[]] 1 5) =
      CallResult.raised (mkInteractions [[]] 1 5) := by
  decide

/-- Claim C7 counterexample: with `sequence_length = 0 < 1` and
`target_length = 1`, `to_sequence` on the log `[[1]]` raises no
invalid-argument error at all — it completes normally, allocating and
filling zero-width windows (the claim demanded failure before any
allocation). -/
theorem claim_C7_counterexample :
    to_sequence 0 1 0 (mkInteractions [[1]] 1 3) =
      CallResult.ok
        { mkInteractions [[1]] 1 3 with
          sequences := some
            { user_ids := [0], sequences := [[]], targets := some [[1]]
              length := none, tarlen := none, L := 0 }
          test_sequences := some
            { user_ids := [0], sequences := [[]]
              targets := none, length := none, tarlen := none, L := 0 } } := by
  decide

/-- Claim C7 as amended: neither variant validates `sequence_length` or
`target_length`; calls violating `L ≥ 1` (Variant A) or `T ≥ 1`
(Variant B) can complete normally, replacing both output slots with
degenerate tables, instead of failing fast. -/
theorem claim_C7_amended :
    to_sequence 0 1 9 (mkInteractions [[4,5]] 1 9) =
      CallResult.ok
        { mkInteractions [[4,5]] 1 9 with
          sequences := some
            { user_ids := [0, 9], sequences := [[], []], targets := some [[5],[0]]
              length := none, tarlen := none, L := 0 }
          test_sequences := some
            { user_ids := [0], sequences := [[]]
              targets := none, length := none, tarlen := none, L := 0 } } ∧
    to_newsequence 5 0 (mkInteractions [[1,2,3]] 1 9) =
      CallResult.ok
        { mkInteractions [[1,2,3]] 1 9 with
          sequences := some
            { user_ids := [0, 0]
              sequences := [[1,0,0,0,0], [1,2,0,0,0]]
              targets := some [[], []]
              length := some [1, 2], tarlen := some [0, 0], L := 5 }
          test_sequences := some
            { user_ids := [0], sequences := [[1,2,3,0,0]]
              targets := none, length := some [3], tarlen := none, L := 5 } } := by
  decide

/-! ### Generic helper lemmas -/

theorem mapM_eq_some_map {α β : Type} (f : α → Option β) (g : α → β) :
    ∀ l : List α, (∀ a ∈ l, f a = some (g a)) → l.mapM f = some (l.map g) := by
  intro l
  induction l with
  | nil => intro _; rfl
  | cons a l ih =>
    intro h
    rw [List.mapM_cons, h a (by simp), ih (fun b hb => h b (by simp [hb]))]
    rfl

theorem mem_of_mapM_some {α β : Type} (f : α → Option β) :
    ∀ (l : List α) (out : List β), l.mapM f = some out →
      ∀ b ∈ out, ∃ a ∈ l, f a = some b := by
  intro l
  induction l with
  | nil =>
    intro out h b hb
    simp only [List.mapM_nil] at h
    cases h
    simp at hb
  | cons a l ih =>
    intro out h b hb
    rw [List.mapM_cons] at h
    match ha : f a with
    | none => rw [ha] at h; cases h
    | some b0 =>
      rw [ha] at h
      match hl : l.mapM f with
      | none => rw [hl] at h; cases h
      | some rest =>
        rw [hl] at h
        have h2 : b0 :: rest = out := by simpa using h
        subst h2
        rcases List.mem_cons.mp hb with hb | hb
        · exact ⟨a, by simp, hb ▸ ha⟩
        · rcases ih rest hl b hb with ⟨a1, ha1, hfa1⟩
          exact ⟨a1, by simp [ha1], hfa1⟩

theorem length_le_sum : ∀ l : List Nat, (∀ x ∈ l, 1 ≤ x) → l.length ≤ l.sum := by
  intro l
  induction l with
  | nil => simp
  | cons a l ih =>
    intro h
    have h1 : 1 ≤ a := h a (by simp)
    have h2 : l.length ≤ l.sum := ih (fun x hx => h x (by simp [hx]))
    simp only [List.length_cons, List.sum_cons]
    omega

/-! ### Lemmas about the grouping pipeline -/

theorem mem_insertUser {v u : Nat} :
    ∀ l, v ∈ insertUser u l ↔ v = u ∨ v ∈ l := by
  intro l
  induction l with
  | nil => simp [insertUser]
  | cons w ws ih =>
    by_cases h1 : u < w
    · simp [insertUser, h1]
    · by_cases h2 : u = w
      · subst h2; simp [insertUser, h1]
      · simp only [insertUser, if_neg h1, if_neg h2, List.mem_cons, ih]
        tauto

theorem pairwise_insertUser (u : Nat) :
    ∀ l, List.Pairwise (· < ·) l → List.Pairwise (· < ·) (insertUser u l) := by
  intro l
  induction l with
  | nil => intro _; simp [insertUser]
  | cons w ws ih =>
    intro hp
    rcases List.pairwise_cons.mp hp with ⟨hw, hws⟩
    by_cases h1 : u < w
    · simp only [insertUser, if_pos h1]
      refine List.pairwise_cons.mpr ⟨?_, hp⟩
      intro x hx
      rcases List.mem_cons.mp hx with rfl | hx
      · exact h1
      · exact lt_trans h1 (hw x hx)
    · by_cases h2 : u = w
      · subst h2; simpa [insertUser, h1] using hp
      · simp only [insertUser, if_neg h1, if_neg h2]
        refine List.pairwise_cons.mpr ⟨?_, ih hws⟩
        intro x hx
        rcases (mem_insertUser ws).mp hx with rfl | hx
        · omega
        · exact hw x hx

theorem mem_distinctSorted {v : Nat} :
    ∀ l, v ∈ distinctSorted l ↔ v ∈ l := by
  intro l
  induction l with
  | nil => simp [distinctSorted]
  | cons w ws ih =>
    simp only [distinctSorted, List.foldr_cons] at *
    rw [mem_insertUser, ih]
    simp

theorem pairwise_distinctSorted :
    ∀ l, List.Pairwise (· < ·) (distinctSorted l) := by
  intro l
  induction l with
  | nil => simp [distinctSorted]
  | cons w ws ih =>
    simpa only [distinctSorted, List.foldr_cons] using
      pairwise_insertUser w _ ih

theorem groupByUser_fst (users items : List Nat) :
    (groupByUser users items).map (fun p => p.1) = distinctSorted users := by
  unfold groupByUser
  rw [List.map_map]
  exact List.map_id'' (fun x => rfl) _

theorem pairwise_groupByUser (users items : List Nat) :
    List.Pairwise (· < ·) ((groupByUser users items).map (fun p => p.1)) := by
  rw [groupByUser_fst]
  exact pairwise_distinctSorted users

theorem shape_of_mem_groupByUser {users items : List Nat} {p : Nat × List Nat}
    (h : p ∈ groupByUser users items) :
    p.1 ∈ users ∧ p.2 = historyOf users items p.1 := by
  rcases List.mem_map.mp h with ⟨u, hu, he⟩
  constructor
  · have h1 : p.1 = u := by rw [← he]
    rw [h1]
    exact (mem_distinctSorted users).mp hu
  · rw [← he]

theorem historyOf_sub (users items : List Nat) (u : Nat) :
    ∀ x ∈ historyOf users items u, x ∈ items := by
  intro x hx
  rcases List.mem_map.mp hx with ⟨q, hq, he⟩
  obtain ⟨a, b⟩ := q
  have hmem := List.mem_filter.mp hq
  exact he ▸ (List.of_mem_zip hmem.1).2

theorem historyOf_length (users : List Nat) :
    ∀ items : List Nat, users.length = items.length →
      ∀ u, (historyOf users items u).length = users.count u := by
  induction users with
  | nil => intro items _ u; simp [historyOf]
  | cons v vs ih =>
    intro items hlen u
    cases items with
    | nil => simp at hlen
    | cons x xs =>
      simp only [List.length_cons, Nat.add_right_cancel_iff] at hlen
      have hrec : (historyOf vs xs u).length = vs.count u := ih xs hlen u
      by_cases h : v = u
      · subst h
        have he : historyOf (v :: vs) (x :: xs) v = x :: historyOf vs xs v := by
          simp [historyOf, List.zip_cons_cons, List.filter_cons]
        rw [he, List.count_cons]
        simp [hrec]
      · have hbe : (v == u) = false := beq_false_of_ne h
        have he : historyOf (v :: vs) (x :: xs) u = historyOf vs xs u := by
          simp [historyOf, List.zip_cons_cons, List.filter_cons, hbe]
        rw [he, hrec, List.count_cons, hbe]
        simp

theorem historyOf_ne_nil {users items : List Nat} {u : Nat}
    (hlen : users.length = items.length) (hu : u ∈ users) :
    historyOf users items u ≠ [] := by
  intro hnil
  have h1 := historyOf_length users items hlen u
  rw [hnil] at h1
  have h2 : 0 < users.count u := List.count_pos_iff.mpr hu
  simp at h1
  omega

theorem historyOf_eq_nil_of_not_mem {users items : List Nat} {u : Nat}
    (hu : u ∉ users) : historyOf users items u = [] := by
  have hf : ∀ q ∈ users.zip items, ¬(q.1 == u) = true := by
    intro q hq hbe
    obtain ⟨a, b⟩ := q
    exact hu ((eq_of_beq hbe) ▸ (List.of_mem_zip hq).1)
  unfold historyOf
  rw [List.filter_eq_nil_iff.mpr hf]
  rfl

theorem not_mem_groupByUser_of_empty {users items : List Nat} {u : Nat}
    (hlen : users.length = items.length)
    (hempty : historyOf users items u = []) :
    u ∉ (groupByUser users items).map (fun p => p.1) := by
  rw [groupByUser_fst]
  intro hmem
  exact historyOf_ne_nil hlen ((mem_distinctSorted users).mp hmem) hempty

/-! ### Variant B: closed form of the per-user loop -/

theorem pyLastSlice_suffix (a : List Nat) (n : Nat) :
    ∃ k, pyLastSlice a n = a.drop k := by
  unfold pyLastSlice
  by_cases h : n = 0
  · exact ⟨0, by simp [h]⟩
  · exact ⟨a.length - n, by simp [h]⟩

theorem oneSeqB_suffix (L : Nat) (h : List Nat) :
    ∃ k, oneSeqB L h = h.drop k := by
  unfold oneSeqB
  by_cases hc : L < h.length
  · simpa [hc] using pyLastSlice_suffix h L
  · exact ⟨0, by simp [hc]⟩

theorem oneSeqB_eq (L : Nat) (hL : 1 ≤ L) (h : List Nat) :
    oneSeqB L h = if L < h.length then h.drop (h.length - L) else h := by
  unfold oneSeqB pyLastSlice
  have : ¬(L = 0) := by omega
  simp [this]

theorem oneSeqB_length (L : Nat) (hL : 1 ≤ L) (h : List Nat) :
    (oneSeqB L h).length = min h.length L := by
  rw [oneSeqB_eq L hL h]
  by_cases hc : L < h.length
  · simp [hc, List.length_drop]
    omega
  · simp [hc]
    omega

theorem trainRowsB_eq (L T u : Nat) (one : List Nat) (hone : one.length ≤ L) :
    trainRowsB L T u one =
      some ((List.range (one.length - 1)).map (fun k =>
        { user := u
          window := one.take (k+1) ++ List.replicate (L - (k+1)) 0
          wlen := k + 1
          target := (one.drop (k+1)).take T ++
            List.replicate (T - ((one.drop (k+1)).take T).length) 0
          tlen := ((one.drop (k+1)).take T).length })) := by
  unfold trainRowsB
  apply mapM_eq_some_map
  intro k hk
  have hk2 : k < one.length - 1 := List.mem_range.mp hk
  have h1 : ¬((L : Int) - k - 1 < 0) := by omega
  have h2 : ¬((T : Int) - ((one.drop (k+1)).take T).length < 0) := by
    have := List.length_take T (one.drop (k+1))
    omega
  simp only [npPadRight, if_neg h1, if_neg h2, Option.bind_some, Option.pure_def,
    Option.bind_eq_bind, Option.some_bind]
  have h3 : ((L : Int) - k - 1).toNat = L - (k + 1) := by omega
  have h4 : ((T : Int) - ((one.drop (k+1)).take T).length).toNat
      = T - ((one.drop (k+1)).take T).length := by omega
  rw [h3, h4]

theorem stepNewB_eq (L T : Nat) (acc : ListsB) (p : Nat × List Nat)
    (h : (oneSeqB L p.2).length ≤ L) :
    stepNewB L T acc p =
      some { train := acc.train ++ rowsForB L T p
             test := acc.test ++ [evalForB L p] } := by
  unfold stepNewB
  have h1 : ¬((L : Int) - (oneSeqB L p.2).length < 0) := by omega
  have h3 : ((L : Int) - (oneSeqB L p.2).length).toNat
      = L - (oneSeqB L p.2).length := by omega
  simp only [npPadRight, if_neg h1, Option.bind_eq_bind, Option.some_bind,
    trainRowsB_eq L T p.1 (oneSeqB L p.2) h]
  rw [h3]
  rfl

theorem foldB_closed (L T : Nat) (hL : 1 ≤ L) :
    ∀ (es : List (Nat × List Nat)) (acc : ListsB),
      es.foldlM (stepNewB L T) acc =
        some { train := acc.train ++ (es.map (rowsForB L T)).flatten
               test := acc.test ++ es.map (evalForB L) } := by
  intro es
  induction es with
  | nil => intro acc; simp [List.foldlM_nil]
  | cons p es ih =>
    intro acc
    have hlen : (oneSeqB L p.2).length ≤ L := by
      rw [oneSeqB_length L hL]
      omega
    rw [List.foldlM_cons, stepNewB_eq L T acc p hlen]
    simp only [Option.bind_eq_bind, Option.some_bind, ih]
    simp [List.append_assoc]

theorem toNewTables_eq (L T : Nat) (hL : 1 ≤ L) (users items : List Nat) :
    toNewTables L T users items =
      some { train := ((groupByUser users items).map (rowsForB L T)).flatten
             test := (groupByUser users items).map (evalForB L) } := by
  unfold toNewTables
  rw [foldB_closed L T hL]
  simp

theorem npPadRight_some {a out : List Nat} {pad : Int}
    (h : npPadRight a pad = some out) :
    out = a ++ List.replicate pad.toNat 0 := by
  unfold npPadRight at h
  by_cases hc : pad < 0
  · rw [if_pos hc] at h; cases h
  · rw [if_neg hc] at h
    exact (Option.some.inj h).symm

theorem stepNewB_shape {L T : Nat} {acc out : ListsB} {p : Nat × List Nat}
    (h : stepNewB L T acc p = some out) :
    (∃ w, out.test = acc.test ++ [(p.1, w, (oneSeqB L p.2).length)]) ∧
    (∃ rows, trainRowsB L T p.1 (oneSeqB L p.2) = some rows ∧
      out.train = acc.train ++ rows) := by
  simp only [stepNewB, Option.bind_eq_bind] at h
  match h1 : npPadRight (oneSeqB L p.2) ((L : Int) - (oneSeqB L p.2).length) with
  | none => rw [h1] at h; cases h
  | some w =>
    rw [h1] at h
    match h2 : trainRowsB L T p.1 (oneSeqB L p.2) with
    | none => rw [h2] at h; cases h
    | some rows =>
      rw [h2] at h
      have h3 : { train := acc.train ++ rows,
                  test := acc.test ++ [(p.1, w, (oneSeqB L p.2).length)] : ListsB }
          = out := by simpa using h
      subst h3
      exact ⟨⟨w, rfl⟩, ⟨rows, rfl, rfl⟩⟩

theorem foldB_shape {L T : Nat} :
    ∀ (es : List (Nat × List Nat)) (acc out : ListsB),
      es.foldlM (stepNewB L T) acc = some out →
      out.test.length = acc.test.length + es.length ∧
      (∀ r ∈ out.train, r ∈ acc.train ∨
        ∃ p ∈ es, ∃ rows, trainRowsB L T p.1 (oneSeqB L p.2) = some rows ∧ r ∈ rows) := by
  intro es
  induction es with
  | nil =>
    intro acc out h
    simp only [List.foldlM_nil, Option.pure_def, Option.some.injEq] at h
    subst h
    exact ⟨by simp, fun r hr => Or.inl hr⟩
  | cons p es ih =>
    intro acc out h
    rw [List.foldlM_cons] at h
    match h1 : stepNewB L T acc p with
    | none => rw [h1] at h; cases h
    | some acc1 =>
      rw [h1] at h
      simp only [Option.bind_eq_bind, Option.some_bind] at h
      rcases ih acc1 out h with ⟨hlen, hmem⟩
      rcases stepNewB_shape h1 with ⟨⟨w, hw⟩, ⟨rows, hrows, htr⟩⟩
      constructor
      · rw [hlen, hw]
        simp
        omega
      · intro r hr
        rcases hmem r hr with hr1 | ⟨q, hq, rows1, hrows1, hrmem⟩
        · rw [htr] at hr1
          rcases List.mem_append.mp hr1 with hr2 | hr2
          · exact Or.inl hr2
          · exact Or.inr ⟨p, by simp, rows, hrows, hr2⟩
        · exact Or.inr ⟨q, by simp [hq], rows1, hrows1, hrmem⟩

theorem trainRowsB_mem {L T u : Nat} {one : List Nat} {rows : List RowB}
    (h : trainRowsB L T u one = some rows) :
    ∀ r ∈ rows, ∃ k z1 z2,
      r = { user := u
            window := one.take (k+1) ++ List.replicate z1 0
            wlen := k + 1
            target := (one.drop (k+1)).take T ++ List.replicate z2 0
            tlen := ((one.drop (k+1)).take T).length } := by
  intro r hr
  unfold trainRowsB at h
  rcases mem_of_mapM_some _ _ _ h r hr with ⟨k, hk, hfk⟩
  simp only [Option.bind_eq_bind, Option.pure_def] at hfk
  match h1 : npPadRight (one.take (k+1)) ((L : Int) - k - 1) with
  | none => rw [h1] at hfk; cases hfk
  | some sub =>
    rw [h1] at hfk
    match h2 : npPadRight ((one.drop (k+1)).take T)
        ((T : Int) - ((one.drop (k+1)).take T).length) with
    | none => rw [h2] at hfk; cases hfk
    | some tgt =>
      rw [h2] at hfk
      simp only [Option.some_bind, Option.some.injEq] at hfk
      refine ⟨k, ((L : Int) - k - 1).toNat,
        ((T : Int) - ((one.drop (k+1)).take T).length).toNat, ?_⟩
      rw [← hfk, npPadRight_some h1, npPadRight_some h2]

/-! ### Reduction lemmas for the call wrappers -/

theorem to_sequence_raised {L T uninit : Nat} {I : Interactions}
    (h : toSequenceTables L T uninit I.num_users I.user_ids I.item_ids = none) :
    to_sequence L T uninit I = CallResult.raised I := by
  unfold to_sequence
  rw [h]

theorem to_sequence_ok {L T uninit : Nat} {I : Interactions} {s : StateA}
    (h : toSequenceTables L T uninit I.num_users I.user_ids I.item_ids = some s) :
    to_sequence L T uninit I =
      CallResult.ok { I with sequences := some (trainTableA L s)
                             test_sequences := some (testTableA L s) } := by
  unfold to_sequence
  rw [h]

theorem to_newsequence_raised {L T : Nat} {I : Interactions}
    (h : toNewTables L T I.user_ids I.item_ids = none) :
    to_newsequence L T I = CallResult.raised I := by
  unfold to_newsequence
  rw [h]

theorem to_newsequence_tables {L T : Nat} {I : Interactions} {lists : ListsB}
    (h : toNewTables L T I.user_ids I.item_ids = some lists) :
    to_newsequence L T I =
      if lists.train.isEmpty then CallResult.raised I
      else if lists.test.isEmpty then
        CallResult.raised { I with sequences := some (trainTableB lists.train) }
      else
        CallResult.ok { I with sequences := some (trainTableB lists.train)
                               test_sequences := some (testTableB lists.test) } := by
  unfold to_newsequence
  rw [h]

/-! ### Claims C4, C10, C9 -/

theorem rowsForB_eq_spec (L T : Nat) (hL : 1 ≤ L) (q : Nat × List Nat) :
    rowsForB L T q = specRowsB L T q := by
  unfold rowsForB specRowsB
  rw [oneSeqB_length L hL, oneSeqB_eq L hL]
  apply List.map_congr_left
  intro k hk
  have hlen : (if L < q.2.length then q.2.drop (q.2.length - L) else q.2).length
      = min q.2.length L := by
    by_cases hc : L < q.2.length
    · simp [hc]; omega
    · simp [hc]; omega
  have htake : (((if L < q.2.length then q.2.drop (q.2.length - L) else q.2).drop
      (k+1)).take T).length = min T (min q.2.length L - (k+1)) := by
    rw [List.length_take, List.length_drop, hlen]
  rw [htake]

theorem evalForB_eq_spec (L : Nat) (hL : 1 ≤ L) (q : Nat × List Nat) :
    evalForB L q = specEvalB L q := by
  unfold evalForB specEvalB
  rw [oneSeqB_length L hL, oneSeqB_eq L hL]

/-- Claim C4: `to_newsequence` produces, per user `u` with history `h` of
length `c` (letting `h' = h[-L:]` if `c > L` else `h`, `c' = min c L`),
exactly one evaluation row (`h'` right-padded to width `L`, recorded length
`c'`) and exactly one training row per prefix length `p ∈ [1, c'-1]`
(window `h'[0:p]` right-padded to `L` with recorded window length `p`,
target `h'[p:p+T]` right-padded to `T` with recorded target length
`min T (c'-p)`), with the rows ordered by ascending user id and, within a
user, by increasing prefix length. -/
theorem claim_C4_newsequence_rows (L T : Nat) (hL : 1 ≤ L)
    (users items : List Nat) :
    List.Pairwise (· < ·) ((groupByUser users items).map (fun p => p.1)) ∧
    toNewTables L T users items =
      some { train := ((groupByUser users items).map (specRowsB L T)).flatten
             test := (groupByUser users items).map (specEvalB L) } := by
  refine ⟨pairwise_groupByUser users items, ?_⟩
  rw [toNewTables_eq L T hL users items]
  rw [List.map_congr_left (fun q _ => rowsForB_eq_spec L T hL q),
    List.map_congr_left (fun q _ => evalForB_eq_spec L hL q)]

/-- Claim C4 witness: the theorem applied to Scenario 3 of the spec —
history `[1,2,3,4]`, `L = 5`, `T = 1`. -/
theorem claim_C4_witness :
    (1:Nat) ≤ 5 ∧
    (List.Pairwise (· < ·) ((groupByUser [0,0,0,0] [1,2,3,4]).map (fun p => p.1)) ∧
    toNewTables 5 1 [0,0,0,0] [1,2,3,4] =
      some { train := ((groupByUser [0,0,0,0] [1,2,3,4]).map (specRowsB 5 1)).flatten
             test := (groupByUser [0,0,0,0] [1,2,3,4]).map (specEvalB 5) }) :=
  ⟨by decide, claim_C4_newsequence_rows 5 1 (by decide) [0,0,0,0] [1,2,3,4]⟩

theorem rowsForB_ne_nil_iff (L T : Nat) (hL : 1 ≤ L) (q : Nat × List Nat) :
    rowsForB L T q ≠ [] ↔ 2 ≤ min q.2.length L := by
  unfold rowsForB
  rw [ne_eq, List.map_eq_nil_iff, List.range_eq_nil, oneSeqB_length L hL]
  omega

/-- Claim C10: with a valid `sequence_length` (`L ≥ 1`), `to_newsequence`
completes normally exactly when some user's retained history
(`c' = min c L`) has length at least 2, i.e. contributes a training row;
otherwise the accumulated training-row list is empty, `np.array` of it is
one-dimensional, reading `sequences.shape[1]` in the `SequenceInteractions`
constructor fails, and the call raises with the object untouched. -/
theorem claim_C10_requires_training_row (L T : Nat) (I : Interactions)
    (hL : 1 ≤ L) :
    ((∃ q ∈ groupByUser I.user_ids I.item_ids, 2 ≤ min q.2.length L) →
      ∃ I2, to_newsequence L T I = CallResult.ok I2) ∧
    ((¬∃ q ∈ groupByUser I.user_ids I.item_ids, 2 ≤ min q.2.length L) →
      to_newsequence L T I = CallResult.raised I) := by
  have htab := toNewTables_eq L T hL I.user_ids I.item_ids
  have hred := to_newsequence_tables (I := I) htab
  constructor
  · intro ⟨q, hq, hmin⟩
    have htr : ((groupByUser I.user_ids I.item_ids).map (rowsForB L T)).flatten ≠ [] := by
      intro hnil
      rw [List.flatten_eq_nil_iff] at hnil
      exact ((rowsForB_ne_nil_iff L T hL q).mpr hmin)
        (hnil _ (List.mem_map.mpr ⟨q, hq, rfl⟩))
    have hg : groupByUser I.user_ids I.item_ids ≠ [] := by
      intro hnil
      rw [hnil] at htr
      simp at htr
    have hte : (groupByUser I.user_ids I.item_ids).map (evalForB L) ≠ [] := by
      simpa [List.map_eq_nil_iff] using hg
    rw [hred]
    rw [if_neg (by simpa [List.isEmpty_eq_true] using htr),
      if_neg (by simpa [List.isEmpty_eq_true] using hte)]
    exact ⟨_, rfl⟩
  · intro hno
    have htr : ((groupByUser I.user_ids I.item_ids).map (rowsForB L T)).flatten = [] := by
      rw [List.flatten_eq_nil_iff]
      intro l hl
      rcases List.mem_map.mp hl with ⟨q, hq, he⟩
      by_contra hne
      exact hno ⟨q, hq, (rowsForB_ne_nil_iff L T hL q).mp (he ▸ hne)⟩
    rw [hred, if_pos (by simpa [List.isEmpty_eq_true] using htr)]

/-- Claim C10 witness: a log whose single user has a single retained item
(`min c L = 1 < 2`) makes the call raise; one with two items lets it
complete. -/
theorem claim_C10_witness :
    (1:Nat) ≤ 5 ∧
    ((¬∃ q ∈ groupByUser [0] [1], 2 ≤ min q.2.length 5) →
      to_newsequence 5 1 (mkInteractions [[1]] 1 5) = CallResult.raised (mkInteractions [[1]] 1 5)) :=
  ⟨by decide, (claim_C10_requires_training_row 5 1 (mkInteractions [[1]] 1 5) (by decide)).2⟩

/-- Claim C9: each variant either raises with both derived-table slots (and
everything else) exactly as before the call, or returns normally with both
slots replaced wholesale by the freshly built tables. -/
theorem claim_C9_atomicity (L T uninit : Nat) (I : Interactions) :
    (to_sequence L T uninit I = CallResult.raised I ∨
      ∃ s t, to_sequence L T uninit I =
        CallResult.ok { I with sequences := some s, test_sequences := some t }) ∧
    (to_newsequence L T I = CallResult.raised I ∨
      ∃ s t, to_newsequence L T I =
        CallResult.ok { I with sequences := some s, test_sequences := some t }) := by
  constructor
  · cases h : toSequenceTables L T uninit I.num_users I.user_ids I.item_ids with
    | none => exact Or.inl (to_sequence_raised h)
    | some s => exact Or.inr ⟨_, _, to_sequence_ok h⟩
  · cases h : toNewTables L T I.user_ids I.item_ids with
    | none => exact Or.inl (to_newsequence_raised h)
    | some lists =>
      have hred := to_newsequence_tables (I := I) h
      by_cases htr : lists.train.isEmpty
      · rw [hred, if_pos htr]
        exact Or.inl rfl
      · have hsh := foldB_shape (groupByUser I.user_ids I.item_ids)
          { train := [], test := [] } lists h
        have hg : groupByUser I.user_ids I.item_ids ≠ [] := by
          intro hnil
          rcases List.exists_mem_of_ne_nil _
            (by simpa [List.isEmpty_eq_true] using htr) with ⟨r, hr⟩
          rcases hsh.2 r hr with hmem | ⟨p, hp, _⟩
          · simp at hmem
          · rw [hnil] at hp; simp at hp
        have hte : ¬lists.test.isEmpty = true := by
          rw [List.isEmpty_eq_true, ← List.length_eq_zero, hsh.1]
          simp only [List.length_nil, Nat.zero_add]
          intro hzero
          exact hg (List.length_eq_zero.mp hzero)
        rw [hred, if_neg (by simpa using htr), if_neg hte]
        exact Or.inr ⟨_, _, rfl⟩

/-! ### Variant A: the fill loop -/

theorem slidingWindowOne_length (h : List Nat) (M : Nat) :
    (slidingWindowOne h M).length = M := by
  unfold slidingWindowOne
  by_cases hc : M ≤ h.length
  · rw [if_pos hc, List.length_drop]
    omega
  · rw [if_neg hc, List.length_append, List.length_replicate]
    omega

theorem winRowA_length (L T : Nat) (h : List Nat) :
    (winRowA L T h).length = L := by
  unfold winRowA
  rw [List.length_take, slidingWindowOne_length]
  omega

theorem pyLastSlice_length_of_le {a : List Nat} {n : Nat}
    (hn : 1 ≤ n) (hle : n ≤ a.length) : (pyLastSlice a n).length = n := by
  unfold pyLastSlice
  rw [if_neg (by omega), List.length_drop]
  omega

theorem tgtRowA_length (L T : Nat) (h : List Nat) (hT : 1 ≤ T) :
    (tgtRowA L T h).length = T :=
  pyLastSlice_length_of_le hT (by rw [slidingWindowOne_length]; omega)

theorem evalRowA_length (L T : Nat) (h : List Nat) (hL : 1 ≤ L) :
    (evalRowA L T h).length = L :=
  pyLastSlice_length_of_le hL (by rw [slidingWindowOne_length]; omega)

theorem setRow_some {mat : List (List Nat)} {src : List Nat} {w : Nat}
    (hw : ∀ r ∈ mat, r.length = w) (hsrc : src.length = w) {i : Nat}
    (hi : i < mat.length) :
    setRow mat i src = some (mat.set i src) := by
  unfold setRow
  split
  · rename_i hnone
    rw [List.get?_eq_none] at hnone
    omega
  · rename_i row hrow
    rw [if_pos]
    rw [hsrc, hw row (List.get?_mem hrow)]

theorem setRow_length {mat out : List (List Nat)} {i : Nat} {src : List Nat}
    (h : setRow mat i src = some out) : out.length = mat.length := by
  unfold setRow at h
  split at h
  · cases h
  · split at h
    · cases h
      rw [List.length_set]
    · split at h
      · cases h
        rw [List.length_set]
      · cases h

theorem setCell_some {a : List Nat} {i v : Nat} (hi : i < a.length) :
    setCell a i v = some (a.set i v) := by
  unfold setCell
  rw [if_pos hi]

theorem setCell_length {a out : List Nat} {i v : Nat}
    (h : setCell a i v = some out) : out.length = a.length := by
  unfold setCell at h
  split at h
  · cases h
    rw [List.length_set]
  · cases h

theorem stepA_eq {L T n nu : Nat} (hL : 1 ≤ L) (hT : 1 ≤ T) {s : StateA}
    (hwf : WFA L T n nu s) (i u : Nat) (hs : List Nat)
    (hi : i < n) (hu : u < nu) (hguard : s.last ≠ some u) :
    stepA L T s (i, u, hs) =
      some { seqs := s.seqs.set i (winRowA L T hs)
             tgts := s.tgts.set i (tgtRowA L T hs)
             users := s.users.set i u
             test := s.test.set u (evalRowA L T hs)
             testUsers := s.testUsers.set u u
             last := some u } := by
  obtain ⟨h1, h2, h3, h4, h5, h6, h7, h8⟩ := hwf
  have e1 : setRow s.test u (pyLastSlice (slidingWindowOne hs (L + T)) L)
      = some (s.test.set u (evalRowA L T hs)) :=
    setRow_some h8 (evalRowA_length L T hs hL) (by omega)
  have e2 : setCell s.testUsers u u = some (s.testUsers.set u u) :=
    setCell_some (by omega)
  have e3 : setRow s.tgts i (pyLastSlice (slidingWindowOne hs (L + T)) T)
      = some (s.tgts.set i (tgtRowA L T hs)) :=
    setRow_some h7 (tgtRowA_length L T hs hT) (by omega)
  have e4 : setRow s.seqs i ((slidingWindowOne hs (L + T)).take L)
      = some (s.seqs.set i (winRowA L T hs)) :=
    setRow_some h6 (winRowA_length L T hs) (by omega)
  have e5 : setCell s.users i u = some (s.users.set i u) :=
    setCell_some (by omega)
  simp only [stepA, stepTestA, if_pos hguard, e1, e2, e3, e4, e5,
    Option.bind_eq_bind, Option.some_bind]
  rfl

theorem WFA_set {L T n nu : Nat} {s : StateA} (hwf : WFA L T n nu s)
    (hL : 1 ≤ L) (hT : 1 ≤ T) {i u : Nat} {hs : List Nat} :
    WFA L T n nu
      { seqs := s.seqs.set i (winRowA L T hs)
        tgts := s.tgts.set i (tgtRowA L T hs)
        users := s.users.set i u
        test := s.test.set u (evalRowA L T hs)
        testUsers := s.testUsers.set u u
        last := some u } := by
  obtain ⟨h1, h2, h3, h4, h5, h6, h7, h8⟩ := hwf
  refine ⟨by simpa using h1, by simpa using h2, by simpa using h3,
    by simpa using h4, by simpa using h5, ?_, ?_, ?_⟩
  · intro r hr
    rcases List.mem_or_eq_of_mem_set hr with hr | rfl
    · exact h6 r hr
    · exact winRowA_length L T hs
  · intro r hr
    rcases List.mem_or_eq_of_mem_set hr with hr | rfl
    · exact h7 r hr
    · exact tgtRowA_length L T hs hT
  · intro r hr
    rcases List.mem_or_eq_of_mem_set hr with hr | rfl
    · exact h8 r hr
    · exact evalRowA_length L T hs hL

/-- Master characterization of the `to_sequence` fill loop on a suffix of the
grouped log: the loop succeeds, keeps the state well-formed, fills rows
`i0, i0+1, …` with each user's single window/target/user-id triple, leaves
all other training rows untouched, writes each processed user's evaluation
row and user id, and leaves the evaluation rows of all other users
untouched. -/
theorem foldA_master (L T : Nat) (hL : 1 ≤ L) (hT : 1 ≤ T) {n nu : Nat} :
    ∀ (es : List (Nat × List Nat)) (i0 : Nat) (s : StateA),
      WFA L T n nu s →
      i0 + es.length ≤ n →
      (∀ p ∈ es, p.1 < nu) →
      List.Pairwise (· < ·) (es.map (fun p => p.1)) →
      (∀ p ∈ es, s.last ≠ some p.1) →
      ∃ S, (List.enumFrom i0 es).foldlM (stepA L T) s = some S ∧
        WFA L T n nu S ∧
        (∀ j, j < i0 ∨ i0 + es.length ≤ j →
          S.seqs[j]? = s.seqs[j]? ∧ S.tgts[j]? = s.tgts[j]? ∧
          S.users[j]? = s.users[j]?) ∧
        (∀ k, (hk : k < es.length) →
          S.seqs[i0 + k]? = some (winRowA L T es[k].2) ∧
          S.tgts[i0 + k]? = some (tgtRowA L T es[k].2) ∧
          S.users[i0 + k]? = some es[k].1) ∧
        (∀ v, v ∉ es.map (fun p => p.1) →
          S.test[v]? = s.test[v]? ∧ S.testUsers[v]? = s.testUsers[v]?) ∧
        (∀ p ∈ es, S.test[p.1]? = some (evalRowA L T p.2) ∧
          S.testUsers[p.1]? = some p.1) := by
  intro es
  induction es with
  | nil =>
    intro i0 s hwf _ _ _ _
    refine ⟨s, by simp [List.enumFrom, List.foldlM_nil], hwf, ?_, ?_, ?_, ?_⟩
    · intro j _; exact ⟨rfl, rfl, rfl⟩
    · intro k hk; simp at hk
    · intro v _; exact ⟨rfl, rfl⟩
    · intro p hp; simp at hp
  | cons p es ih =>
    intro i0 s hwf hn hnu hpw hlast
    obtain ⟨u, hs⟩ := p
    have hi0 : i0 < n := by
      simp only [List.length_cons] at hn
      omega
    have hu : u < nu := hnu (u, hs) (by simp)
    have hstep := stepA_eq hL hT hwf i0 u hs hi0 hu
      (hlast (u, hs) (by simp))
    set s1 : StateA :=
      { seqs := s.seqs.set i0 (winRowA L T hs)
        tgts := s.tgts.set i0 (tgtRowA L T hs)
        users := s.users.set i0 u
        test := s.test.set u (evalRowA L T hs)
        testUsers := s.testUsers.set u u
        last := some u } with hs1
    have hwf1 : WFA L T n nu s1 := WFA_set hwf hL hT
    have hpw2 : (∀ b ∈ es.map (fun p => p.1), u < b) ∧
        List.Pairwise (· < ·) (es.map (fun p => p.1)) := by
      rw [List.map_cons] at hpw
      exact List.pairwise_cons.mp hpw
    have hih := ih (i0 + 1) s1 hwf1
      (by simp only [List.length_cons] at hn; omega)
      (fun q hq => hnu q (by simp [hq]))
      hpw2.2
      (fun q hq => by
        have hlt : u < q.1 := hpw2.1 q.1 (List.mem_map.mpr ⟨q, hq, rfl⟩)
        simp only [hs1]
        intro he
        have : u = q.1 := Option.some.inj he
        omega)
    obtain ⟨S, hfold, hwfS, hout, hin, htout, htin⟩ := hih
    obtain ⟨w1, w2, w3, w4, w5, w6, w7, w8⟩ := hwf
    refine ⟨S, ?_, hwfS, ?_, ?_, ?_, ?_⟩
    · rw [List.enumFrom_cons, List.foldlM_cons, hstep]
      simpa using hfold
    · intro j hj
      have hj1 : j < i0 + 1 ∨ (i0 + 1) + es.length ≤ j := by
        simp only [List.length_cons] at hj
        omega
      have hne : i0 ≠ j := by
        simp only [List.length_cons] at hj
        omega
      obtain ⟨e1, e2, e3⟩ := hout j hj1
      refine ⟨?_, ?_, ?_⟩
      · rw [e1]; simp only [hs1]; exact List.getElem?_set_ne hne
      · rw [e2]; simp only [hs1]; exact List.getElem?_set_ne hne
      · rw [e3]; simp only [hs1]; exact List.getElem?_set_ne hne
    · intro k hk
      cases k with
      | zero =>
        obtain ⟨e1, e2, e3⟩ := hout i0 (Or.inl (by omega))
        rw [Nat.add_zero]
        refine ⟨?_, ?_, ?_⟩
        · rw [e1]; simp only [hs1]
          simpa using List.getElem?_set_self (show i0 < s.seqs.length by omega)
        · rw [e2]; simp only [hs1]
          simpa using List.getElem?_set_self (show i0 < s.tgts.length by omega)
        · rw [e3]; simp only [hs1]
          simpa using List.getElem?_set_self (show i0 < s.users.length by omega)
      | succ k =>
        have hk2 : k < es.length := by
          simp only [List.length_cons] at hk
          omega
        obtain ⟨e1, e2, e3⟩ := hin k hk2
        have harith : i0 + (k + 1) = (i0 + 1) + k := by omega
        rw [harith]
        simpa [List.getElem_cons_succ] using ⟨e1, e2, e3⟩
    · intro v hv
      have hvne : u ≠ v := by
        intro h
        exact hv (by simp [h])
      have hv2 : v ∉ es.map (fun p => p.1) := fun h => hv (by simp [h])
      obtain ⟨e1, e2⟩ := htout v hv2
      constructor
      · rw [e1]; simp only [hs1]; exact List.getElem?_set_ne hvne
      · rw [e2]; simp only [hs1]; exact List.getElem?_set_ne hvne
    · intro q hq
      rcases List.mem_cons.mp hq with rfl | hq
      · have hu_notin : u ∉ es.map (fun p => p.1) := by
          intro hmem
          have := hpw2.1 u hmem
          omega
        obtain ⟨e1, e2⟩ := htout u hu_notin
        constructor
        · rw [e1]; simp only [hs1]
          simpa using List.getElem?_set_self (show u < s.test.length by omega)
        · rw [e2]; simp only [hs1]
          simpa using List.getElem?_set_self (show u < s.testUsers.length by omega)
      · exact htin q hq

theorem globalAlloc_ge (L T : Nat) (users items : List Nat) :
    (groupByUser users items).length ≤ allocA L T users := by
  have hterm : ∀ x ∈ (userCounts users).map
      (fun c => if L + T ≤ c then c - (L + T) + 1 else 1), 1 ≤ x := by
    intro x hx
    rcases List.mem_map.mp hx with ⟨c, _, rfl⟩
    split <;> omega
  have h := length_le_sum _ hterm
  unfold allocA
  simpa [groupByUser, userCounts] using h

/-- The initial loop state of `to_sequence`: `np.zeros` row tables and
`np.empty` user arrays (contents `uninit`), `_uid = None`. -/
def initA (L T uninit nu : Nat) (users : List Nat) : StateA :=
  { seqs := List.replicate (allocA L T users) (List.replicate L 0)
    tgts := List.replicate (allocA L T users) (List.replicate T 0)
    users := List.replicate (allocA L T users) uninit
    test := List.replicate nu (List.replicate L 0)
    testUsers := List.replicate nu uninit
    last := none }

theorem toSequenceTables_eq_fold (L T uninit nu : Nat) (users items : List Nat) :
    toSequenceTables L T uninit nu users items =
      (List.enumFrom 0 (groupByUser users items)).foldlM (stepA L T)
        (initA L T uninit nu users) := by
  unfold toSequenceTables initA
  rw [List.enum_eq_enumFrom]

theorem WFA_initA (L T uninit nu : Nat) (users : List Nat) :
    WFA L T (allocA L T users) nu (initA L T uninit nu users) := by
  unfold WFA initA
  refine ⟨by simp, by simp, by simp, by simp, by simp, ?_, ?_, ?_⟩ <;>
    · intro r hr
      rw [List.eq_of_mem_replicate hr]
      simp

/-- Full characterization of a successful `to_sequence` array computation:
under valid arguments (`L, T ≥ 1`) and in-range grouped user ids, the loop
completes; the first `g.length` training rows hold each grouped user's
window/target/user id, the remaining allocated rows keep their `np.zeros`
and `np.empty` contents; each grouped user's evaluation row and id are
written and every other evaluation row stays zero. -/
theorem toSequenceTables_master (L T uninit nu : Nat) (users items : List Nat)
    (hL : 1 ≤ L) (hT : 1 ≤ T)
    (hus : ∀ p ∈ groupByUser users items, p.1 < nu) :
    ∃ S, toSequenceTables L T uninit nu users items = some S ∧
      WFA L T (allocA L T users) nu S ∧
      (∀ j, (groupByUser users items).length ≤ j → j < allocA L T users →
        S.seqs[j]? = some (List.replicate L 0) ∧
        S.tgts[j]? = some (List.replicate T 0) ∧
        S.users[j]? = some uninit) ∧
      (∀ k, (hk : k < (groupByUser users items).length) →
        S.seqs[k]? = some (winRowA L T (groupByUser users items)[k].2) ∧
        S.tgts[k]? = some (tgtRowA L T (groupByUser users items)[k].2) ∧
        S.users[k]? = some (groupByUser users items)[k].1) ∧
      (∀ v, v < nu → v ∉ (groupByUser users items).map (fun p => p.1) →
        S.test[v]? = some (List.replicate L 0) ∧
        S.testUsers[v]? = some uninit) ∧
      (∀ p ∈ groupByUser users items,
        S.test[p.1]? = some (evalRowA L T p.2) ∧
        S.testUsers[p.1]? = some p.1) := by
  obtain ⟨S, hfold, hwf, hout, hin, htout, htin⟩ :=
    foldA_master L T hL hT (groupByUser users items) 0
      (initA L T uninit nu users)
      (WFA_initA L T uninit nu users)
      (by simpa using globalAlloc_ge L T users items)
      hus
      (pairwise_groupByUser users items)
      (fun p _ => by simp [initA])
  refine ⟨S, ?_, hwf, ?_, ?_, ?_, htin⟩
  · rw [toSequenceTables_eq_fold]
    exact hfold
  · intro j hj1 hj2
    obtain ⟨e1, e2, e3⟩ := hout j (Or.inr (by omega))
    refine ⟨?_, ?_, ?_⟩
    · rw [e1]
      simp [initA, List.getElem?_replicate, hj2]
    · rw [e2]
      simp [initA, List.getElem?_replicate, hj2]
    · rw [e3]
      simp [initA, List.getElem?_replicate, hj2]
  · intro k hk
    simpa using hin k hk
  · intro v hv hvnot
    obtain ⟨e1, e2⟩ := htout v hvnot
    constructor
    · rw [e1]
      simp [initA, List.getElem?_replicate, hv]
    · rw [e2]
      simp [initA, List.getElem?_replicate, hv]

/-! ### Claim C5: training-table row count -/

theorem stepA_lengths {L T : Nat} {s s' : StateA} {p : Nat × Nat × List Nat}
    (h : stepA L T s p = some s') :
    s'.seqs.length = s.seqs.length ∧ s'.tgts.length = s.tgts.length := by
  unfold stepA at h
  simp only [Option.bind_eq_bind] at h
  match h0 : stepTestA L s p.2.1 (slidingWindowOne p.2.2 (L + T)) with
  | none => rw [h0] at h; cases h
  | some t3 =>
    rw [h0] at h
    simp only [Option.some_bind] at h
    match h1 : setRow s.tgts p.1 (pyLastSlice (slidingWindowOne p.2.2 (L + T)) T) with
    | none => rw [h1] at h; cases h
    | some tg =>
      rw [h1] at h
      simp only [Option.some_bind] at h
      match h2 : setRow s.seqs p.1 ((slidingWindowOne p.2.2 (L + T)).take L) with
      | none => rw [h2] at h; cases h
      | some sq =>
        rw [h2] at h
        simp only [Option.some_bind] at h
        match h3 : setCell s.users p.1 p.2.1 with
        | none => rw [h3] at h; cases h
        | some su =>
          rw [h3] at h
          simp only [Option.some_bind, Option.pure_def, Option.some.injEq] at h
          subst h
          exact ⟨setRow_length h2, setRow_length h1⟩

theorem foldA_lengths {L T : Nat} :
    ∀ (es : List (Nat × Nat × List Nat)) (s S : StateA),
      es.foldlM (stepA L T) s = some S →
      S.seqs.length = s.seqs.length ∧ S.tgts.length = s.tgts.length := by
  intro es
  induction es with
  | nil =>
    intro s S h
    simp only [List.foldlM_nil, Option.pure_def, Option.some.injEq] at h
    subst h
    exact ⟨rfl, rfl⟩
  | cons p es ih =>
    intro s S h
    rw [List.foldlM_cons] at h
    match h1 : stepA L T s p with
    | none => rw [h1] at h; cases h
    | some s1 =>
      rw [h1] at h
      simp only [Option.bind_eq_bind, Option.some_bind] at h
      obtain ⟨e1, e2⟩ := ih s1 S h
      obtain ⟨f1, f2⟩ := stepA_lengths h1
      exact ⟨e1.trans f1, e2.trans f2⟩

theorem allocA_eq_spec (L T : Nat) (users items : List Nat)
    (hlen : users.length = items.length) :
    allocA L T users =
      ((groupByUser users items).map
        (fun p => max 1 (p.2.length + 1 - (L + T)))).sum := by
  unfold allocA userCounts groupByUser
  rw [List.map_map, List.map_map]
  congr 1
  apply List.map_congr_left
  intro u _
  simp only [Function.comp_apply]
  rw [historyOf_length users items hlen u]
  split <;> omega

/-- Claim C5: the training table produced by `to_sequence` (both its windows
array and its targets array) has exactly
`Σ_u max(1, c_u − L − T + 1)` rows, summed over the users present in the
log, `c_u` being user `u`'s history length. -/
theorem claim_C5_training_row_count (L T uninit : Nat) (I I2 : Interactions)
    (hlen : I.user_ids.length = I.item_ids.length)
    (hok : to_sequence L T uninit I = CallResult.ok I2) :
    ∃ S tg, I2.sequences = some S ∧ S.targets = some tg ∧
      S.sequences.length =
        ((groupByUser I.user_ids I.item_ids).map
          (fun p => max 1 (p.2.length + 1 - (L + T)))).sum ∧
      tg.length =
        ((groupByUser I.user_ids I.item_ids).map
          (fun p => max 1 (p.2.length + 1 - (L + T)))).sum := by
  cases htab : toSequenceTables L T uninit I.num_users I.user_ids I.item_ids with
  | none => rw [to_sequence_raised htab] at hok; cases hok
  | some s =>
    rw [to_sequence_ok htab] at hok
    have hI2 : I2 = { I with sequences := some (trainTableA L s)
                             test_sequences := some (testTableA L s) } :=
      (CallResult.ok.inj hok).symm
    subst hI2
    rw [toSequenceTables_eq_fold] at htab
    obtain ⟨e1, e2⟩ := foldA_lengths _ _ _ htab
    refine ⟨trainTableA L s, s.tgts, rfl, rfl, ?_, ?_⟩
    · show s.seqs.length = _
      rw [e1, ← allocA_eq_spec L T I.user_ids I.item_ids hlen]
      simp [initA]
    · rw [e2, ← allocA_eq_spec L T I.user_ids I.item_ids hlen]
      simp [initA]

/-- Claim C5 witness: a concrete two-user log, one long history (3 sliding
rows allocated) and one short (1 padded row), `L = 2`, `T = 1`:
`3 + 1 = 4` rows. -/
theorem claim_C5_witness :
    (mkInteractions [[1,2,3,4,5],[6]] 2 9).user_ids.length
      = (mkInteractions [[1,2,3,4,5],[6]] 2 9).item_ids.length ∧
    ∃ S tg,
      ({ mkInteractions [[1,2,3,4,5],[6]] 2 9 with
         sequences := some
           { user_ids := [0, 1, 0, 0]
             sequences := [[3,4],[6,0],[0,0],[0,0]]
             targets := some [[5],[0],[0],[0]]
             length := none, tarlen := none, L := 2 }
         test_sequences := some
           { user_ids := [0, 1]
             sequences := [[4,5],[0,0]]
             targets := none, length := none, tarlen := none, L := 2 }
       } : Interactions).sequences = some S ∧
      S.targets = some tg ∧
      S.sequences.length =
        ((groupByUser (mkInteractions [[1,2,3,4,5],[6]] 2 9).user_ids
            (mkInteractions [[1,2,3,4,5],[6]] 2 9).item_ids).map
          (fun p => max 1 (p.2.length + 1 - (2 + 1)))).sum ∧
      tg.length =
        ((groupByUser (mkInteractions [[1,2,3,4,5],[6]] 2 9).user_ids
            (mkInteractions [[1,2,3,4,5],[6]] 2 9).item_ids).map
          (fun p => max 1 (p.2.length + 1 - (2 + 1)))).sum :=
  ⟨by decide,
    claim_C5_training_row_count 2 1 0 (mkInteractions [[1,2,3,4,5],[6]] 2 9) _
      (by decide) (by decide)⟩

/-! ### Claim C8: content preservation -/

theorem filter_ne_zero_of_pos {l : List Nat} (h : ∀ x ∈ l, 1 ≤ x) :
    l.filter (fun x => x != 0) = l := by
  rw [List.filter_eq_self]
  intro a ha
  rw [bne_iff_ne]
  have := h a ha
  omega

theorem filter_replicate_zero (k : Nat) :
    (List.replicate k 0).filter (fun x => x != 0) = [] := by
  rw [List.filter_eq_nil_iff]
  intro a ha
  rw [List.eq_of_mem_replicate ha]
  simp

theorem isSubseg_nil (b : List Nat) : isSubseg [] b :=
  ⟨[], b, by simp⟩

theorem isSubseg_refl (b : List Nat) : isSubseg b b :=
  ⟨[], [], by simp⟩

theorem isSubseg_drop (h : List Nat) (d : Nat) : isSubseg (h.drop d) h :=
  ⟨h.take d, [], by rw [List.append_nil, List.take_append_drop]⟩

theorem isSubseg_drop_take (h : List Nat) (d m : Nat) :
    isSubseg ((h.drop d).take m) h :=
  ⟨h.take d, (h.drop d).drop m, by
    rw [List.append_assoc, List.take_append_drop, List.take_append_drop]⟩

/-- For one filled training row of `to_sequence` (window = first `L`, target
= last `T` of the single width-`M` window), the non-padding window entries
followed by the non-padding target entries form a contiguous run of the
user's history. -/
theorem contentA (L T : Nat) (hL : 1 ≤ L) (hT : 1 ≤ T) {h : List Nat}
    (hpos : ∀ x ∈ h, 1 ≤ x) :
    isSubseg ((winRowA L T h).filter (fun x => x != 0) ++
      (tgtRowA L T h).filter (fun x => x != 0)) h := by
  have hlen := slidingWindowOne_length h (L + T)
  have htgt : tgtRowA L T h = (slidingWindowOne h (L + T)).drop L := by
    unfold tgtRowA pyLastSlice
    rw [if_neg (by omega), hlen]
    congr 1
    omega
  have hkey : (winRowA L T h).filter (fun x => x != 0) ++
      (tgtRowA L T h).filter (fun x => x != 0)
      = (slidingWindowOne h (L + T)).filter (fun x => x != 0) := by
    rw [htgt]
    unfold winRowA
    rw [← List.filter_append, List.take_append_drop]
  rw [hkey]
  unfold slidingWindowOne
  by_cases hc : L + T ≤ h.length
  · rw [if_pos hc,
      filter_ne_zero_of_pos (fun x hx => hpos x (List.mem_of_mem_drop hx))]
    exact isSubseg_drop h (h.length - (L + T))
  · rw [if_neg hc, List.filter_append, filter_ne_zero_of_pos hpos,
      filter_replicate_zero, List.append_nil]
    exact isSubseg_refl h

/-- For one training row of `to_newsequence` (prefix window, following
target slice, right-padding), the non-padding window entries followed by
the non-padding target entries form a contiguous run of the user's
history. -/
theorem contentB_row (h : List Nat) (d k z1 z2 T : Nat)
    (hpos : ∀ x ∈ h, 1 ≤ x) :
    isSubseg ((((h.drop d).take (k+1) ++ List.replicate z1 0).filter (fun x => x != 0)) ++
      ((((h.drop d).drop (k+1)).take T ++ List.replicate z2 0).filter (fun x => x != 0))) h := by
  have hp1 : ∀ x ∈ (h.drop d).take (k+1), 1 ≤ x :=
    fun x hx => hpos x (List.mem_of_mem_drop (List.mem_of_mem_take hx))
  have hp2 : ∀ x ∈ ((h.drop d).drop (k+1)).take T, 1 ≤ x :=
    fun x hx => hpos x
      (List.mem_of_mem_drop (List.mem_of_mem_drop (List.mem_of_mem_take hx)))
  rw [List.filter_append, List.filter_append, filter_replicate_zero,
    filter_replicate_zero, List.append_nil, List.append_nil,
    filter_ne_zero_of_pos hp1, filter_ne_zero_of_pos hp2, ← List.take_add]
  exact isSubseg_drop_take h d ((k+1) + T)

/-- Claim C8: content preservation.  For every training row produced by
either variant (real item ids being ≥ 1, so that 0 occurs only as padding),
concatenating the row's non-padding window entries with its non-padding
target entries reproduces a contiguous subsequence of the recorded user's
original item history, in original order.  (Rows of Variant A beyond the
filled prefix are entirely zero, so their concatenation is the empty run.) -/
theorem claim_C8_content_preservation (L T uninit : Nat) (I : Interactions)
    (hL : 1 ≤ L) (hT : 1 ≤ T)
    (husers : ∀ u ∈ I.user_ids, u < I.num_users)
    (hpos : ∀ x ∈ I.item_ids, 1 ≤ x) :
    (∀ I2 S tg, to_sequence L T uninit I = CallResult.ok I2 →
      I2.sequences = some S → S.targets = some tg →
      ∀ (j u : Nat) (w t : List Nat),
        S.user_ids[j]? = some u → S.sequences[j]? = some w →
        tg[j]? = some t →
        isSubseg (w.filter (fun x => x != 0) ++ t.filter (fun x => x != 0))
          (historyOf I.user_ids I.item_ids u)) ∧
    (∀ I2 S tg, to_newsequence L T I = CallResult.ok I2 →
      I2.sequences = some S → S.targets = some tg →
      ∀ (j u : Nat) (w t : List Nat),
        S.user_ids[j]? = some u → S.sequences[j]? = some w →
        tg[j]? = some t →
        isSubseg (w.filter (fun x => x != 0) ++ t.filter (fun x => x != 0))
          (historyOf I.user_ids I.item_ids u)) := by
  constructor
  · intro I2 S tg hok hS htg j u w t hu hw ht
    cases htab : toSequenceTables L T uninit I.num_users I.user_ids I.item_ids with
    | none => rw [to_sequence_raised htab] at hok; cases hok
    | some s =>
      rw [to_sequence_ok htab] at hok
      have hI2 := (CallResult.ok.inj hok).symm
      subst hI2
      have hSe : S = trainTableA L s := (Option.some.inj hS).symm
      subst hSe
      have htge : tg = s.tgts := (Option.some.inj htg).symm
      subst htge
      obtain ⟨S', hS', hwf, hout, hin, _, _⟩ :=
        toSequenceTables_master L T uninit I.num_users I.user_ids I.item_ids
          hL hT (fun p hp => husers p.1 (shape_of_mem_groupByUser hp).1)
      have hss : s = S' := Option.some.inj (htab ▸ hS')
      subst hss
      replace hu : s.users[j]? = some u := hu
      replace hw : s.seqs[j]? = some w := hw
      have hjn : j < allocA L T I.user_ids := by
        obtain ⟨hlt, _⟩ := List.getElem?_eq_some.mp hu
        obtain ⟨_, _, h3, _⟩ := hwf
        omega
      by_cases hj : j < (groupByUser I.user_ids I.item_ids).length
      · obtain ⟨e1, e2, e3⟩ := hin j hj
        have hw2 : w = winRowA L T (groupByUser I.user_ids I.item_ids)[j].2 :=
          Option.some.inj (hw ▸ e1)
        have ht2 : t = tgtRowA L T (groupByUser I.user_ids I.item_ids)[j].2 :=
          Option.some.inj (ht ▸ e2)
        have hu2 : u = (groupByUser I.user_ids I.item_ids)[j].1 :=
          Option.some.inj (hu ▸ e3)
        obtain ⟨hfst, hsnd⟩ := shape_of_mem_groupByUser
          (List.getElem_mem hj (l := groupByUser I.user_ids I.item_ids))
        have hpos2 : ∀ x ∈ (groupByUser I.user_ids I.item_ids)[j].2, 1 ≤ x :=
          fun x hx => hpos x (historyOf_sub I.user_ids I.item_ids _ x (hsnd ▸ hx))
        rw [hw2, ht2, hu2, ← hsnd]
        exact contentA L T hL hT hpos2
      · obtain ⟨e1, e2, e3⟩ := hout j (by omega) hjn
        have hw2 : w = List.replicate L 0 := Option.some.inj (hw ▸ e1)
        have ht2 : t = List.replicate T 0 := Option.some.inj (ht ▸ e2)
        rw [hw2, ht2, filter_replicate_zero, filter_replicate_zero]
        exact isSubseg_nil _
  · intro I2 S tg hok hS htg j u w t hu hw ht
    cases htab : toNewTables L T I.user_ids I.item_ids with
    | none => rw [to_newsequence_raised htab] at hok; cases hok
    | some lists =>
      rw [to_newsequence_tables htab] at hok
      by_cases he1 : lists.train.isEmpty
      · rw [if_pos he1] at hok; cases hok
      · rw [if_neg he1] at hok
        by_cases he2 : lists.test.isEmpty
        · rw [if_pos he2] at hok; cases hok
        · rw [if_neg he2] at hok
          have hI2 := (CallResult.ok.inj hok).symm
          subst hI2
          have hSe : S = trainTableB lists.train := (Option.some.inj hS).symm
          subst hSe
          have htge : tg = lists.train.map (fun r => r.target) :=
            (Option.some.inj htg).symm
          subst htge
          replace hu : (lists.train.map (fun r => r.user))[j]? = some u := hu
          replace hw : (lists.train.map (fun r => r.window))[j]? = some w := hw
          rw [List.getElem?_map] at hu hw ht
          match hr : lists.train[j]? with
          | none => rw [hr] at hu; cases hu
          | some r =>
            rw [hr] at hu hw ht
            have hu2 : u = r.user := (Option.some.inj hu).symm
            have hw2 : w = r.window := (Option.some.inj hw).symm
            have ht2 : t = r.target := (Option.some.inj ht).symm
            have hrmem : r ∈ lists.train := by
              obtain ⟨hlt, hget⟩ := List.getElem?_eq_some.mp hr
              exact hget ▸ List.getElem_mem hlt
            have hsh := foldB_shape (groupByUser I.user_ids I.item_ids)
              { train := [], test := [] } lists htab
            rcases hsh.2 r hrmem with hin0 | ⟨p, hp, rows, hrows, hrin⟩
            · simp at hin0
            · obtain ⟨k, z1, z2, hrshape⟩ := trainRowsB_mem hrows r hrin
              obtain ⟨d, hd⟩ := oneSeqB_suffix L p.2
              obtain ⟨hpfst, hpsnd⟩ := shape_of_mem_groupByUser hp
              have hpos2 : ∀ x ∈ p.2, 1 ≤ x :=
                fun x hx =>
                  hpos x (historyOf_sub I.user_ids I.item_ids _ x (hpsnd ▸ hx))
              rw [hu2, hw2, ht2, hrshape]
              simp only [hd, ← hpsnd]
              exact contentB_row p.2 d k z1 z2 T hpos2

/-- Claim C8 witness: the content-preservation theorem applied to the
nine-item user with `L = 5`, `T = 3`, row 0. -/
theorem claim_C8_witness :
    ((1:Nat) ≤ 5 ∧ (1:Nat) ≤ 3 ∧
      (∀ u ∈ (mkInteractions [[1,2,3,4,5,6,7,8,9]] 1 10).user_ids,
        u < (mkInteractions [[1,2,3,4,5,6,7,8,9]] 1 10).num_users) ∧
      (∀ x ∈ (mkInteractions [[1,2,3,4,5,6,7,8,9]] 1 10).item_ids, 1 ≤ x)) ∧
    isSubseg (([2,3,4,5,6].filter (fun x => x != 0)) ++
        ([7,8,9].filter (fun x => x != 0)))
      (historyOf (mkInteractions [[1,2,3,4,5,6,7,8,9]] 1 10).user_ids
        (mkInteractions [[1,2,3,4,5,6,7,8,9]] 1 10).item_ids 0) := by
  refine ⟨⟨by decide, by decide, by decide, by decide⟩, ?_⟩
  exact (claim_C8_content_preservation 5 3 77
      (mkInteractions [[1,2,3,4,5,6,7,8,9]] 1 10)
      (by decide) (by decide) (by decide) (by decide)).1
    { mkInteractions [[1,2,3,4,5,6,7,8,9]] 1 10 with
      sequences := some
        { user_ids := [0, 77], sequences := [[2,3,4,5,6],[0,0,0,0,0]]
          targets := some [[7,8,9],[0,0,0]]
          length := none, tarlen := none, L := 5 }
      test_sequences := some
        { user_ids := [0], sequences := [[5,6,7,8,9]]
          targets := none, length := none, tarlen := none, L := 5 } }
    { user_ids := [0, 77], sequences := [[2,3,4,5,6],[0,0,0,0,0]]
      targets := some [[7,8,9],[0,0,0]]
      length := none, tarlen := none, L := 5 }
    [[7,8,9],[0,0,0]]
    (by decide) rfl rfl 0 0 [2,3,4,5,6] [7,8,9] (by decide) (by decide) (by decide)

/-! ### Claim C6 (amended) -/

theorem rowsForB_user {L T : Nat} {q : Nat × List Nat} {r : RowB}
    (h : r ∈ rowsForB L T q) : r.user = q.1 := by
  rcases List.mem_map.mp h with ⟨k, _, he⟩
  rw [← he]

/-- Claim C6 as amended: a user `u` with no interactions never enters the
grouped log.  Variant A (with valid arguments and in-range user ids) does
not crash; any training row recorded for `u` is an all-zero row (the only
rows whose recorded user can be `u` are the zero-filled overallocated ones,
whose `np.empty` user slot is arbitrary), and `u`'s evaluation row is
all-zero.  Variant B, when it returns at all, emits no training row and no
evaluation row for `u` — `u` is absent from both tables. -/
theorem claim_C6_amended (L T uninit : Nat) (I : Interactions) (u : Nat)
    (hL : 1 ≤ L) (hT : 1 ≤ T)
    (hlen : I.user_ids.length = I.item_ids.length)
    (husers : ∀ v ∈ I.user_ids, v < I.num_users)
    (hu : u < I.num_users)
    (hempty : historyOf I.user_ids I.item_ids u = []) :
    (∃ I2, to_sequence L T uninit I = CallResult.ok I2 ∧
      (∀ S, I2.sequences = some S →
        ∀ (j : Nat) (w : List Nat), S.user_ids[j]? = some u →
          S.sequences[j]? = some w → w = List.replicate L 0) ∧
      (∀ S, I2.test_sequences = some S →
        S.sequences[u]? = some (List.replicate L 0))) ∧
    (∀ I2, to_newsequence L T I = CallResult.ok I2 →
      (∀ S, I2.sequences = some S → u ∉ S.user_ids) ∧
      (∀ S, I2.test_sequences = some S → u ∉ S.user_ids)) := by
  have hnotin : u ∉ (groupByUser I.user_ids I.item_ids).map (fun p => p.1) :=
    not_mem_groupByUser_of_empty hlen hempty
  constructor
  · obtain ⟨S', hS', hwf, hout, hin, htout, htin⟩ :=
      toSequenceTables_master L T uninit I.num_users I.user_ids I.item_ids
        hL hT (fun p hp => husers p.1 (shape_of_mem_groupByUser hp).1)
    refine ⟨_, to_sequence_ok hS', ?_, ?_⟩
    · intro S hS j w hju hjw
      have hSe : S = trainTableA L S' := (Option.some.inj hS).symm
      subst hSe
      replace hju : S'.users[j]? = some u := hju
      replace hjw : S'.seqs[j]? = some w := hjw
      have hjn : j < allocA L T I.user_ids := by
        obtain ⟨hlt, _⟩ := List.getElem?_eq_some.mp hju
        obtain ⟨_, _, h3, _⟩ := hwf
        omega
      by_cases hj : j < (groupByUser I.user_ids I.item_ids).length
      · exfalso
        obtain ⟨_, _, e3⟩ := hin j hj
        have hue : u = (groupByUser I.user_ids I.item_ids)[j].1 :=
          Option.some.inj (hju ▸ e3)
        exact hnotin (List.mem_map.mpr
          ⟨(groupByUser I.user_ids I.item_ids)[j], List.getElem_mem hj, hue.symm⟩)
      · obtain ⟨e1, _, _⟩ := hout j (by omega) hjn
        exact Option.some.inj (hjw ▸ e1)
    · intro S hS
      have hSe : S = testTableA L S' := (Option.some.inj hS).symm
      subst hSe
      exact (htout u hu hnotin).1
  · intro I2 hok
    cases htab : toNewTables L T I.user_ids I.item_ids with
    | none => rw [to_newsequence_raised htab] at hok; cases hok
    | some lists =>
      have hcl := toNewTables_eq L T hL I.user_ids I.item_ids
      have hlists : lists =
          { train := ((groupByUser I.user_ids I.item_ids).map (rowsForB L T)).flatten
            test := (groupByUser I.user_ids I.item_ids).map (evalForB L) } :=
        Option.some.inj (htab ▸ hcl)
      rw [to_newsequence_tables htab] at hok
      by_cases he1 : lists.train.isEmpty
      · rw [if_pos he1] at hok; cases hok
      · rw [if_neg he1] at hok
        by_cases he2 : lists.test.isEmpty
        · rw [if_pos he2] at hok; cases hok
        · rw [if_neg he2] at hok
          have hI2 := (CallResult.ok.inj hok).symm
          subst hI2
          constructor
          · intro S hS
            have hSe : S = trainTableB lists.train := (Option.some.inj hS).symm
            subst hSe
            intro hmem
            rcases List.mem_map.mp hmem with ⟨r, hr, hru⟩
            rw [hlists] at hr
            rcases List.mem_flatten.mp hr with ⟨rows, hrows, hrin⟩
            rcases List.mem_map.mp hrows with ⟨q, hq, he⟩
            have : r.user = q.1 := rowsForB_user (he ▸ hrin)
            exact hnotin (List.mem_map.mpr ⟨q, hq, by rw [← this, hru]⟩)
          · intro S hS
            have hSe : S = testTableB lists.test := (Option.some.inj hS).symm
            subst hSe
            intro hmem
            rcases List.mem_map.mp hmem with ⟨e, he, heu⟩
            rw [hlists] at he
            rcases List.mem_map.mp he with ⟨q, hq, he2⟩
            have : e.1 = q.1 := by rw [← he2]; rfl
            exact hnotin (List.mem_map.mpr ⟨q, hq, by rw [← this, heu]⟩)

/-- Claim C6 (amended) witness: the theorem applied to a two-user log whose
user 0 has no interactions (`L = 5`, `T = 1`). -/
theorem claim_C6_amended_witness :
    ((1:Nat) ≤ 5 ∧ (1:Nat) ≤ 1 ∧
      (mkInteractions [[],[1,2]] 2 5).user_ids.length
        = (mkInteractions [[],[1,2]] 2 5).item_ids.length ∧
      (∀ v ∈ (mkInteractions [[],[1,2]] 2 5).user_ids,
        v < (mkInteractions [[],[1,2]] 2 5).num_users) ∧
      0 < (mkInteractions [[],[1,2]] 2 5).num_users ∧
      historyOf (mkInteractions [[],[1,2]] 2 5).user_ids
        (mkInteractions [[],[1,2]] 2 5).item_ids 0 = []) ∧
    ((∃ I2, to_sequence 5 1 77 (mkInteractions [[],[1,2]] 2 5) = CallResult.ok I2 ∧
      (∀ S, I2.sequences = some S →
        ∀ (j : Nat) (w : List Nat), S.user_ids[j]? = some 0 →
          S.sequences[j]? = some w → w = List.replicate 5 0) ∧
      (∀ S, I2.test_sequences = some S →
        S.sequences[0]? = some (List.replicate 5 0))) ∧
    (∀ I2, to_newsequence 5 1 (mkInteractions [[],[1,2]] 2 5) = CallResult.ok I2 →
      (∀ S, I2.sequences = some S → 0 ∉ S.user_ids) ∧
      (∀ S, I2.test_sequences = some S → 0 ∉ S.user_ids))) :=
  ⟨⟨by decide, by decide, by decide, by decide, by decide, by decide⟩,
    claim_C6_amended 5 1 77 (mkInteractions [[],[1,2]] 2 5) 0
      (by decide) (by decide) (by decide) (by decide) (by decide) (by decide)⟩

end HPG
